import Mathlib

/-!
# Verification of the mkdocs-protobuf extraction / resolution / rendering core

This development gives a shallow embedding of the core of the
`mkdocs_protobuf_plugin` package — the proto-source extractor
(`extractor.py`), the cross-file import/type resolver
(`import_resolver.py`) and the markdown converter (`converter.py`) —
and proves properties of the embedded definitions.

Modelling conventions:
* Python strings are Lean `String`s; scanners work on `List Char`.
* Python's regex character classes `\w` and `\s` are modelled over their
  ASCII subsets (all concrete inputs used in the theorems are ASCII).
* Python dicts used only through `get`/`in`/`[k] = v` are modelled either
  as functions `String → Option String` (resolver indices) or as
  insertion-ordered association lists (where iteration order or
  truthiness of the dict matters).
* File-system access (`open`, `os.path.exists`) is modelled by an explicit
  map `FS := String → Option String` from absolute paths to contents.
* Paths are `/`-separated absolute strings; `os.path.abspath` is the
  identity on such paths (the plugin hands the resolver absolute paths).
* Loops that advance an index are modelled by structural recursion or by
  fuel bounded by the input length (every loop step consumes at least one
  character, so the fuel never runs out).
-/

namespace MkdocsProtobuf

/-- ASCII model of Python's regex class `\w` (`[A-Za-z0-9_]`). -/
def isWordChar (c : Char) : Bool :=
  ('a' ≤ c && c ≤ 'z') || ('A' ≤ c && c ≤ 'Z') || ('0' ≤ c && c ≤ '9') || c = '_'

/-- ASCII model of Python's regex class `\s` and of `str.strip`'s default
whitespace set: space, tab, newline, carriage return, vertical tab, form feed. -/
def isSpaceChar (c : Char) : Bool :=
  c = ' ' || c = '\t' || c = '\n' || c = '\r' || c = Char.ofNat 11 || c = Char.ofNat 12

/-- ASCII decimal digit, Python's regex class `\d`. -/
def isDigitChar (c : Char) : Bool := '0' ≤ c && c ≤ '9'

/-- Is `pat` a contiguous substring of `l`?  Model of Python's `in` on strings
(for a nonempty pattern; all patterns used in the source are nonempty). -/
def isInfixOfL (pat : List Char) : List Char → Bool
  | [] => pat.isPrefixOf []
  | c :: rest => pat.isPrefixOf (c :: rest) || isInfixOfL pat rest

/-- Python `needle in hay` for strings. -/
def pyIn (needle hay : String) : Bool := isInfixOfL needle.data hay.data

/-- Leftmost, non-overlapping replace-all on character lists; model of Python's
`str.replace(old, new)` for a nonempty `old`.  `fuel` bounds the recursion and
is instantiated with the length of the subject string, which suffices because
every step consumes at least one character. -/
def replaceAllL (old new : List Char) : Nat → List Char → List Char
  | _, [] => []
  | 0, s => s
  | fuel + 1, c :: rest =>
      if old ≠ [] ∧ old.isPrefixOf (c :: rest) then
        new ++ replaceAllL old new fuel ((c :: rest).drop old.length)
      else
        c :: replaceAllL old new fuel rest

/-- Python `s.replace(old, new)` (for nonempty `old`, as used in the source). -/
def pyReplace (s old new : String) : String :=
  String.mk (replaceAllL old.data new.data s.data.length s.data)

/-- Python `s.strip()` (whitespace from both ends). -/
def pyStrip (s : String) : String :=
  String.mk (((s.data.dropWhile isSpaceChar).reverse.dropWhile isSpaceChar).reverse)

/-- Split on a single character (all separators used by the source are
single characters): Python `s.split(c)` / Lean `String.splitOn`. -/
def splitOnCharL (c : Char) : List Char → List (List Char)
  | [] => [[]]
  | x :: rest =>
    if x = c then [] :: splitOnCharL c rest
    else
      match splitOnCharL c rest with
      | s :: ss => (x :: s) :: ss
      | [] => [[x]]

def splitOnChar (c : Char) (s : String) : List String :=
  (splitOnCharL c s.data).map String.mk

/-- Python `sep.join(l)` / `String.intercalate`. -/
def joinSep (sep : String) : List String → String
  | [] => ""
  | [x] => x
  | x :: rest => x ++ sep ++ joinSep sep rest

/-- Python `s.startswith(p)`. -/
def pyStartsWith (s p : String) : Bool := p.data.isPrefixOf s.data

/-- Python `s.endswith(p)`. -/
def pyEndsWith (s p : String) : Bool := p.data.isSuffixOf s.data

/-- Python `s[n:]` (drop the first `n` characters). -/
def strDrop (s : String) (n : Nat) : String := String.mk (s.data.drop n)

/-- Python `s.splitlines()` restricted to `\n` line terminators (the proto
sources in scope use `\n`): like `splitOn "\n"`, but the empty string yields
`[]` and a trailing newline produces no trailing empty line. -/
def pySplitlines (s : String) : List String :=
  if s = "" then []
  else
    let parts := splitOnChar '\n' s
    if pyEndsWith s "\n" then parts.dropLast else parts

/-- Python truthy `or` on strings: `a or b` is `b` when `a` is empty. -/
def pyOr (a b : String) : String := if a = "" then b else a


/-! ## Dictionaries

Resolver indices are modelled as functions (only `get`-style access is
performed on them); the extractor's comment dictionaries are modelled as
insertion-ordered association lists because the code tests their truthiness
(non-emptiness) and iterates `items()`. -/

/-- Functional dictionary update, Python `d[k] = v`. -/
def dictInsert (m : String → Option String) (k v : String) : String → Option String :=
  fun k' => if k' = k then some v else m k'

/-- Association-list dict with Python semantics: assignment to an existing key
updates it in place, otherwise the pair is appended. -/
def assocInsert (d : List (String × String)) (k v : String) : List (String × String) :=
  if d.any (fun kv => kv.1 = k) then
    d.map (fun kv => if kv.1 = k then (k, v) else kv)
  else
    d ++ [(k, v)]

/-- Python `d.get(k, "")` on an association-list dict. -/
def assocGetD (d : List (String × String)) (k : String) : String :=
  match d.find? (fun kv => kv.1 = k) with
  | some kv => kv.2
  | none => ""

/-- Python `k in d` on an association-list dict. -/
def assocHasKey (d : List (String × String)) (k : String) : Bool :=
  d.any (fun kv => kv.1 = k)

/-! ## Path operations (POSIX, on absolute `/`-separated paths) -/

/-- Index just past the last `/` of `p`, or `0` if `p` has no slash. -/
def lastSlashEnd (p : String) : Nat :=
  match (p.data.reverse.findIdx? (fun c => c = '/')) with
  | some i => p.data.length - i
  | none => 0

/-- `os.path.basename` for POSIX paths. -/
def basename (p : String) : String :=
  String.mk (p.data.drop (lastSlashEnd p))

/-- `os.path.dirname` for POSIX paths: everything before the last `/`, with
trailing slashes stripped unless the result consists only of slashes. -/
def dirname (p : String) : String :=
  let head := p.data.take (lastSlashEnd p)
  if head.all (fun c => c = '/') then String.mk head
  else String.mk (head.reverse.dropWhile (fun c => c = '/')).reverse

/-- `os.path.join(a, b)` for POSIX paths (two arguments, as used in the source). -/
def pjoin (a b : String) : String :=
  if pyStartsWith b "/" then b
  else if a = "" then b
  else if pyEndsWith a "/" then a ++ b
  else a ++ "/" ++ b

/-- Split a path on `/` and discard empty components (as
`posixpath.relpath` does). -/
def pathParts (p : String) : List String :=
  (splitOnChar '/' p).filter (fun c => c ≠ "")

/-- Length of the longest common prefix of two lists of components. -/
def commonPrefixLen : List String → List String → Nat
  | a :: as, b :: bs => if a = b then commonPrefixLen as bs + 1 else 0
  | _, _ => 0

/-- `os.path.relpath(path, start)` for absolute POSIX paths. -/
def relpath (path start : String) : String :=
  let pl := pathParts path
  let sl := pathParts start
  let i := commonPrefixLen pl sl
  let rel := List.replicate (sl.length - i) ".." ++ pl.drop i
  if rel = [] then "." else joinSep "/" rel

/-- `os.path.normpath` for POSIX paths. -/
def normpath (p : String) : String :=
  let isAbs := pyStartsWith p "/"
  let comps := (splitOnChar '/' p).filter (fun c => c ≠ "" ∧ c ≠ ".")
  let stack := comps.foldl
    (fun (stack : List String) c =>
      if c = ".." then
        match stack.getLast? with
        | some last => if last ≠ ".." then stack.dropLast
                       else stack ++ [c]
        | none => if isAbs then stack else stack ++ [c]
      else stack ++ [c])
    []
  let body := joinSep "/" stack
  if isAbs then "/" ++ body
  else if body = "" then "." else body

/-- `os.path.splitext(p)[0]`: drop the extension that starts at the last dot of
the final component, provided some earlier character of that component is not a
dot. -/
def splitextRoot (p : String) : String :=
  let sepEnd := lastSlashEnd p          -- index of first char of the basename
  let base := p.data.drop sepEnd
  match base.reverse.findIdx? (fun c => c = '.') with
  | none => p
  | some ri =>
      let dotIdx := base.length - 1 - ri   -- index of last '.' within base
      if (base.take dotIdx).any (fun c => c ≠ '.') then
        String.mk (p.data.take (sepEnd + dotIdx))
      else p

/-! ## Regex scanners

Each Python regex used by the source is modelled by a dedicated matcher.
Greedy pieces whose extent is forced (`\s*` before a non-space, `\w+` before a
non-word character, …) are taken maximally; the only genuinely backtracking
pieces — the ordered alternation `(optional|required|repeated)?` and the
non-greedy `(.*?)` before a closing delimiter — are modelled by trying the
alternatives in the order Python tries them. -/

/-- Match a literal at the head of `s` and return the remainder. -/
def dropLit (lit s : List Char) : Option (List Char) :=
  if lit.isPrefixOf s then some (s.drop lit.length) else none

/-- `\w+` (maximal, nonempty). -/
def takeWord (s : List Char) : Option (List Char × List Char) :=
  let p := s.span isWordChar
  if p.1.isEmpty then none else some p

/-- Continuation `(?:\.\w+)*` (greedy) after an initial word. -/
def takeDottedTail : Nat → List Char → List Char → List Char × List Char
  | 0, acc, s => (acc, s)
  | fuel + 1, acc, s =>
    match s with
    | '.' :: rest =>
      match takeWord rest with
      | some (w, r) => takeDottedTail fuel (acc ++ '.' :: w) r
      | none => (acc, s)
    | _ => (acc, s)

/-- `\w+(?:\.\w+)*` (a dotted identifier, greedy). -/
def takeDotted (s : List Char) : Option (List Char × List Char) :=
  match takeWord s with
  | none => none
  | some (w, r) => some (takeDottedTail r.length w r)

/-- One attempt of `kw\s+(\w+)` at the head of `s`: on success, the captured
name and the remainder after the match. -/
def matchKwNameAt (kw : String) (s : List Char) : Option (List Char × List Char) :=
  match dropLit kw.data s with
  | none => none
  | some r1 =>
    let (sp, r2) := r1.span isSpaceChar
    if sp.isEmpty then none else takeWord r2

/-- `re.finditer(kw + r"\s+(\w+)", content)`: scan left to right, resuming
after each match, advancing one character past a failed position. -/
def finditerKwName (kw : String) : Nat → List Char → List String
  | _, [] => []
  | 0, _ => []
  | fuel + 1, c :: rest =>
    match matchKwNameAt kw (c :: rest) with
    | some (w, after) => String.mk w :: finditerKwName kw fuel after
    | none => finditerKwName kw fuel rest

/-- One attempt of `package\s+([^;]+);` at the head of `s` (group 1).  The
greedy `\s+` takes the maximal whitespace run that still leaves at least one
character for `[^;]+` before the `;`. -/
def matchPackageAt (s : List Char) : Option String :=
  match dropLit "package".data s with
  | none => none
  | some r1 =>
    let (nonSemi, r2) := r1.span (fun c => c ≠ ';')
    match r2 with
    | ';' :: _ =>
      let w := (nonSemi.takeWhile isSpaceChar).length
      let L := nonSemi.length
      if 1 ≤ w ∧ 2 ≤ L then some (String.mk (nonSemi.drop (min w (L - 1)))) else none
    | _ => none

/-- `re.search(r"package\s+([^;]+);", content)`, group 1 of the first match. -/
def searchPackageL : Nat → List Char → Option String
  | _, [] => none
  | 0, _ => none
  | fuel + 1, c :: rest =>
    match matchPackageAt (c :: rest) with
    | some p => some p
    | none => searchPackageL fuel rest

def searchPackage (content : String) : Option String :=
  searchPackageL content.data.length content.data

/-- Body matcher for `MESSAGE_REGEX`'s brace-balanced group
`[^{}]*(?:{[^{}]*(?:{[^{}]*}[^{}]*)*}[^{}]*)*`: called just after an opening
brace, returns the captured body and the remainder after the matching `}`.
`d` is the nesting depth still allowed inside (2 for the full pattern). -/
def matchBraceBody : Nat → Nat → List Char → Option (List Char × List Char)
  | 0, _, _ => none
  | fuel + 1, d, s =>
    let (plain, r) := s.span (fun c => c ≠ '{' ∧ c ≠ '}')
    match r with
    | '}' :: rest => some (plain, rest)
    | '{' :: rest =>
      if d = 0 then none
      else
        match matchBraceBody fuel (d - 1) rest with
        | none => none
        | some (inner, r2) =>
          match matchBraceBody fuel d r2 with
          | none => none
          | some (tl, r3) => some (plain ++ '{' :: (inner ++ '}' :: tl), r3)
    | _ => none

/-- One attempt of `MESSAGE_REGEX` =
`message\s+(\w+)\s*{([^{}]*(?:{[^{}]*(?:{[^{}]*}[^{}]*)*}[^{}]*)*)}` at the
head of `s`: name, body and remainder after the closing brace. -/
def matchMessageAt (s : List Char) : Option (String × String × List Char) :=
  match matchKwNameAt "message" s with
  | none => none
  | some (name, r1) =>
    let (_, r2) := r1.span isSpaceChar
    match r2 with
    | '{' :: r3 =>
      match matchBraceBody r3.length 2 r3 with
      | some (body, rest) => some (String.mk name, String.mk body, rest)
      | none => none
    | _ => none

/-- `re.finditer(MESSAGE_REGEX, content, re.DOTALL)`. -/
def finditerMessagesL : Nat → List Char → List (String × String)
  | _, [] => []
  | 0, _ => []
  | fuel + 1, c :: rest =>
    match matchMessageAt (c :: rest) with
    | some (n, b, after) => (n, b) :: finditerMessagesL fuel after
    | none => finditerMessagesL fuel rest

def finditerMessages (content : String) : List (String × String) :=
  finditerMessagesL content.data.length content.data

/-- One attempt of `CLEAN_NESTED_REGEX` = `(message|enum)\s+\w+\s*{[^}]*}` at
the head of `s`; returns the remainder after the match. -/
def matchCleanNestedAt (s : List Char) : Option (List Char) :=
  let tryKw (kw : String) : Option (List Char) :=
    match matchKwNameAt kw s with
    | none => none
    | some (_, r1) =>
      let (_, r2) := r1.span isSpaceChar
      match r2 with
      | '{' :: r3 =>
        let (_, r4) := r3.span (fun c => c ≠ '}')
        match r4 with
        | '}' :: r5 => some r5
        | _ => none
      | _ => none
  match tryKw "message" with
  | some r => some r
  | none => tryKw "enum"

/-- `re.sub(CLEAN_NESTED_REGEX, "", content)`. -/
def cleanNestedL : Nat → List Char → List Char
  | _, [] => []
  | 0, s => s
  | fuel + 1, c :: rest =>
    match matchCleanNestedAt (c :: rest) with
    | some after => cleanNestedL fuel after
    | none => c :: cleanNestedL fuel rest

def cleanNested (content : String) : String :=
  String.mk (cleanNestedL content.data.length content.data)

/-- Split candidates for a non-greedy `(.*?)` (no DOTALL) before a one-char
closing delimiter `close`: every split at an occurrence of `close` before the
first newline, nearest first, paired with the remainder after `close`. -/
def nonGreedyCandidates (close : Char) : List Char → List (List Char × List Char)
  | [] => []
  | c :: rest =>
    if c = close then
      ([], rest) :: (nonGreedyCandidates close rest).map (fun p => (c :: p.1, p.2))
    else if c = '\n' then []
    else (nonGreedyCandidates close rest).map (fun p => (c :: p.1, p.2))

/-- Split candidates for the non-greedy DOTALL `(.*?)` before a literal `*/`:
every split at an occurrence of `*/`, nearest first, paired with the remainder
after the `*/`. -/
def starSplits : List Char → List (List Char × List Char)
  | [] => []
  | c :: rest =>
    let tailSplits := (starSplits rest).map (fun p => (c :: p.1, p.2))
    if c = '*' ∧ rest.head? = some '/' then ([], rest.tail) :: tailSplits
    else tailSplits

/-- Optional trailing-comment group `(?:\s*//\s*(.*))?` (no DOTALL; the two
`\s*` may cross newlines, the captured `(.*)` stops at the next newline).
Returns the capture and the remainder when the group matches. -/
def matchInlineComment (s : List Char) : Option (List Char × List Char) :=
  let (_, r1) := s.span isSpaceChar
  match dropLit "//".data r1 with
  | none => none
  | some r2 =>
    let (_, r3) := r2.span isSpaceChar
    some (r3.span (fun c => c ≠ '\n'))

/-- A match of `FIELD_PATTERN`; optional groups that the source immediately
defaults with `or ""` are stored as `""` when absent. -/
structure FieldMatch where
  modifier : String
  ftype : String
  name : String
  number : String
  options : String
  inline : String
deriving DecidableEq, Repr

/-- Shared ending of `FIELD_PATTERN`: the optional trailing comment after the
`;`. -/
def fieldFinish (modifier ftype name number options : String) (r : List Char) :
    FieldMatch × List Char :=
  match matchInlineComment r with
  | some (txt, r') => (⟨modifier, ftype, name, number, options, String.mk txt⟩, r')
  | none => (⟨modifier, ftype, name, number, options, ""⟩, r)

/-- The part of `FIELD_PATTERN` after the optional modifier:
`\s*(\w+(?:\.\w+)*)\s+(\w+)\s*=\s*(\d+)(?:\s*\[(.*?)\])?;(?:\s*//\s*(.*))?`. -/
def tryFieldRest (modifier : String) (s : List Char) : Option (FieldMatch × List Char) :=
  let (_, r1) := s.span isSpaceChar
  match takeDotted r1 with
  | none => none
  | some (ftype, r2) =>
    let (sp, r3) := r2.span isSpaceChar
    if sp.isEmpty then none
    else
      match takeWord r3 with
      | none => none
      | some (name, r4) =>
        let (_, r5) := r4.span isSpaceChar
        match r5 with
        | '=' :: r6 =>
          let (_, r7) := r6.span isSpaceChar
          let (num, r8) := r7.span isDigitChar
          if num.isEmpty then none
          else
            let withOpts : Option (List Char × List Char) :=
              (let (_, r9) := r8.span isSpaceChar
               match r9 with
               | '[' :: r10 =>
                 (nonGreedyCandidates ']' r10).findSome? (fun p =>
                   if p.2.head? = some ';' then some (p.1, p.2.tail) else none)
               | _ => none)
            match withOpts with
            | some (opts, r11) =>
              some (fieldFinish modifier (String.mk ftype) (String.mk name)
                      (String.mk num) (String.mk opts) r11)
            | none =>
              match r8 with
              | ';' :: r11 =>
                some (fieldFinish modifier (String.mk ftype) (String.mk name)
                        (String.mk num) "" r11)
              | _ => none
        | _ => none

/-- One attempt of `FIELD_PATTERN` at the head of `s`: the three modifier
alternatives are tried in the regex's order, then the empty alternative. -/
def matchFieldAt (s : List Char) : Option (FieldMatch × List Char) :=
  let tryMod (m : String) : Option (FieldMatch × List Char) :=
    match dropLit m.data s with
    | none => none
    | some r => tryFieldRest m r
  ((tryMod "optional").orElse fun _ =>
   (tryMod "required").orElse fun _ =>
   (tryMod "repeated").orElse fun _ => tryFieldRest "" s)

/-- `re.finditer(FIELD_PATTERN, content)`. -/
def finditerFieldL : Nat → List Char → List FieldMatch
  | _, [] => []
  | 0, _ => []
  | fuel + 1, c :: rest =>
    match matchFieldAt (c :: rest) with
    | some (m, after) => m :: finditerFieldL fuel after
    | none => finditerFieldL fuel rest

/-- A match of `METHOD_PATTERN`; absent optional groups stored as `""`. -/
structure MethodMatch where
  name : String
  request : String
  response : String
  options : String
  inline : String
deriving DecidableEq, Repr

/-- One attempt of `METHOD_PATTERN` =
`rpc\s+(\w+)\s*\(\s*(\w+(?:\.\w+)*)\s*\)\s*returns\s*\(\s*(\w+(?:\.\w+)*)\s*\)(?:\s*{(.*?)})?;(?:\s*//\s*(.*))?`
at the head of `s`. -/
def matchMethodAt (s : List Char) : Option (MethodMatch × List Char) :=
  match matchKwNameAt "rpc" s with
  | none => none
  | some (name, r1) =>
    let (_, r2) := r1.span isSpaceChar
    match r2 with
    | '(' :: r3 =>
      let (_, r4) := r3.span isSpaceChar
      match takeDotted r4 with
      | none => none
      | some (req, r5) =>
        let (_, r6) := r5.span isSpaceChar
        match r6 with
        | ')' :: r7 =>
          let (_, r8) := r7.span isSpaceChar
          match dropLit "returns".data r8 with
          | none => none
          | some r9 =>
            let (_, r10) := r9.span isSpaceChar
            match r10 with
            | '(' :: r11 =>
              let (_, r12) := r11.span isSpaceChar
              match takeDotted r12 with
              | none => none
              | some (resp, r13) =>
                let (_, r14) := r13.span isSpaceChar
                match r14 with
                | ')' :: r15 =>
                  let withOpts : Option (List Char × List Char) :=
                    (let (_, r16) := r15.span isSpaceChar
                     match r16 with
                     | '{' :: r17 =>
                       (nonGreedyCandidates '}' r17).findSome? (fun p =>
                         if p.2.head? = some ';' then some (p.1, p.2.tail) else none)
                     | _ => none)
                  let mk (opts : String) (r : List Char) : MethodMatch × List Char :=
                    match matchInlineComment r with
                    | some (txt, r') =>
                      (⟨String.mk name, String.mk req, String.mk resp, opts, String.mk txt⟩, r')
                    | none =>
                      (⟨String.mk name, String.mk req, String.mk resp, opts, ""⟩, r)
                  match withOpts with
                  | some (opts, r18) => some (mk (String.mk opts) r18)
                  | none =>
                    match r15 with
                    | ';' :: r18 => some (mk "" r18)
                    | _ => none
                | _ => none
            | _ => none
        | _ => none
    | _ => none

/-- `re.finditer(METHOD_PATTERN, content)`. -/
def finditerMethodL : Nat → List Char → List MethodMatch
  | _, [] => []
  | 0, _ => []
  | fuel + 1, c :: rest =>
    match matchMethodAt (c :: rest) with
    | some (m, after) => m :: finditerMethodL fuel after
    | none => finditerMethodL fuel rest

/-- Tail of `BLOCK_COMMENTS_PATTERN` after the `*/`:
`\s*(?:optional|required|repeated)?\s*\w+(?:\.\w+)*\s+(\w+)\s*=`.
Returns the captured field name and the remainder after the `=`. -/
def blockTailField (s : List Char) : Option (List Char × List Char) :=
  let (_, r1) := s.span isSpaceChar
  let tryTail (r2 : List Char) : Option (List Char × List Char) :=
    let (_, r3) := r2.span isSpaceChar
    match takeDotted r3 with
    | none => none
    | some (_, r4) =>
      let (sp, r5) := r4.span isSpaceChar
      if sp.isEmpty then none
      else
        match takeWord r5 with
        | none => none
        | some (name, r6) =>
          let (_, r7) := r6.span isSpaceChar
          match r7 with
          | '=' :: r8 => some (name, r8)
          | _ => none
  let tryMod (m : String) : Option (List Char × List Char) :=
    match dropLit m.data r1 with
    | none => none
    | some r2 => tryTail r2
  ((tryMod "optional").orElse fun _ =>
   (tryMod "required").orElse fun _ =>
   (tryMod "repeated").orElse fun _ => tryTail r1)

/-- One attempt of `BLOCK_COMMENTS_PATTERN` =
`/\*\*(.*?)\*/` + field tail (DOTALL) at the head of `s`: the raw comment
capture, the field name, and the remainder. -/
def matchBlockFieldAt (s : List Char) : Option ((List Char × List Char) × List Char) :=
  match dropLit "/**".data s with
  | none => none
  | some r0 =>
    (starSplits r0).findSome? (fun p =>
      match blockTailField p.2 with
      | some (name, rest) => some ((p.1, name), rest)
      | none => none)

/-- `re.finditer(BLOCK_COMMENTS_PATTERN, clean_content, re.DOTALL)`;
yields (raw comment, field name) pairs. -/
def finditerBlockFieldL : Nat → List Char → List (String × String)
  | _, [] => []
  | 0, _ => []
  | fuel + 1, c :: rest =>
    match matchBlockFieldAt (c :: rest) with
    | some ((cm, nm), after) =>
      (String.mk cm, String.mk nm) :: finditerBlockFieldL fuel after
    | none => finditerBlockFieldL fuel rest

/-- One attempt of `/\*\*(.*?)\*/\s*rpc\s+(\w+)` (DOTALL) at the head of `s`. -/
def matchBlockRpcAt (s : List Char) : Option ((List Char × List Char) × List Char) :=
  match dropLit "/**".data s with
  | none => none
  | some r0 =>
    (starSplits r0).findSome? (fun p =>
      let (_, r1) := p.2.span isSpaceChar
      match matchKwNameAt "rpc" r1 with
      | some (name, rest) => some ((p.1, name), rest)
      | none => none)

/-- `re.finditer(r"/\*\*(.*?)\*/\s*rpc\s+(\w+)", service_content, re.DOTALL)`;
yields (raw comment, method name) pairs. -/
def finditerBlockRpcL : Nat → List Char → List (String × String)
  | _, [] => []
  | 0, _ => []
  | fuel + 1, c :: rest =>
    match matchBlockRpcAt (c :: rest) with
    | some ((cm, nm), after) =>
      (String.mk cm, String.mk nm) :: finditerBlockRpcL fuel after
    | none => finditerBlockRpcL fuel rest

/-! ## Comment normalisation (extractor.py) -/

/-- `re.sub(r"\n\s*\*\s*", " ", s)`: a newline followed by optional
whitespace, a `*`, and a greedy whitespace run collapses to one space. -/
def subStarNL : Nat → List Char → List Char
  | _, [] => []
  | 0, s => s
  | fuel + 1, c :: rest =>
    if c = '\n' then
      match (rest.span isSpaceChar).2 with
      | '*' :: r2 => ' ' :: subStarNL fuel (r2.span isSpaceChar).2
      | _ => c :: subStarNL fuel rest
    else c :: subStarNL fuel rest

/-- `re.sub(r"\s+", " ", s)`: each maximal whitespace run becomes one space. -/
def collapseWs : Nat → List Char → List Char
  | _, [] => []
  | 0, s => s
  | fuel + 1, c :: rest =>
    if isSpaceChar c then ' ' :: collapseWs fuel (rest.span isSpaceChar).2
    else c :: collapseWs fuel rest

/-- Index of the last `'\n'` of `l`, if any. -/
def lastNewlineIdx (l : List Char) : Option Nat :=
  match l.reverse.findIdx? (fun c => c = '\n') with
  | some i => some (l.length - 1 - i)
  | none => none

/-- `re.split(r"\n\s*\*\s*\n", s)`: the separator is a newline, optional
whitespace, `*`, then a greedy whitespace run whose last character must be a
newline (greedy `\s*` backtracking to the last `\n` of the run). -/
def splitParaL : Nat → List Char → List Char → List String
  | _, acc, [] => [String.mk acc.reverse]
  | 0, acc, s => [String.mk (acc.reverse ++ s)]
  | fuel + 1, acc, c :: rest =>
    if c = '\n' then
      match (rest.span isSpaceChar).2 with
      | '*' :: r2 =>
        match lastNewlineIdx (r2.takeWhile isSpaceChar) with
        | some k => String.mk acc.reverse :: splitParaL fuel [] (r2.drop (k + 1))
        | none => splitParaL fuel (c :: acc) rest
      | _ => splitParaL fuel (c :: acc) rest
    else splitParaL fuel (c :: acc) rest

def splitPara (s : String) : List String := splitParaL s.data.length [] s.data

/-- Block-comment clean-up for fields (extractor.py lines 92-104): strip, split
into paragraphs on `\n\s*\*\s*\n`, join each paragraph's lines, collapse
whitespace, re-join paragraphs with blank lines. -/
def formatBlockComment (raw : String) : String :=
  let comment := pyStrip raw
  let formatted := (splitPara comment).map (fun p =>
    let p1 := subStarNL p.data.length p.data
    pyStrip (String.mk (collapseWs p1.length p1)))
  joinSep "\n\n" formatted

/-- Block-comment clean-up for methods (extractor.py lines 294-297). -/
def formatMethodComment (raw : String) : String :=
  let c := pyStrip raw
  let c1 := subStarNL c.data.length c.data
  pyStrip (String.mk (collapseWs c1.length c1))

/-! ## Line-comment extraction (extractor.py `__extract_line_comments__`) -/

/-- `re.search(r"(\w+)\s*=", line)`, group 1 of the first match. -/
def searchWordEqL : Nat → List Char → Option String
  | _, [] => none
  | 0, _ => none
  | fuel + 1, c :: rest =>
    match takeWord (c :: rest) with
    | some (w, r) =>
      if (r.span isSpaceChar).2.head? = some '=' then some (String.mk w)
      else searchWordEqL fuel rest
    | none => searchWordEqL fuel rest

/-- `re.search(r"rpc\s+(\w+)", line)`, group 1 of the first match. -/
def searchRpcNameL : Nat → List Char → Option String
  | _, [] => none
  | 0, _ => none
  | fuel + 1, c :: rest =>
    match matchKwNameAt "rpc" (c :: rest) with
    | some (w, _) => some (String.mk w)
    | none => searchRpcNameL fuel rest

/-- Paragraph grouping of collected `//` comment lines (extractor.py lines
186-200): an empty line closes the current paragraph. -/
def buildParagraphs (comment_lines : List String) : List String :=
  let st := comment_lines.foldl
    (fun (st : List String × List String) cl =>
      if cl = "" then
        if st.2 ≠ [] then (st.1 ++ [joinSep " " st.2], []) else st
      else (st.1, st.2 ++ [cl]))
    ([], [])
  if st.2 ≠ [] then st.1 ++ [joinSep " " st.2] else st.1

/-- `__logic_line_comments_fields__`. -/
def logicLineCommentsFields (line : String) (block_comments : List (String × String))
    (comment_lines : List String) : String × String :=
  match searchWordEqL line.data.length line.data with
  | some field_name =>
    if comment_lines ≠ [] ∧ ¬ assocHasKey block_comments field_name then
      (field_name, joinSep "\n\n" (buildParagraphs comment_lines))
    else ("", "")
  | none => ("", "")

/-- `__logic_line_comments_methods__`.  NOTE: the source guards on the
truthiness of the `block_comments` dict here (`if rpc_match and
block_comments:`), not on `comment_lines` as the field analogue does. -/
def logicLineCommentsMethods (line : String) (block_comments : List (String × String))
    (comment_lines : List String) : String × String :=
  match searchRpcNameL line.data.length line.data with
  | some method_name =>
    if block_comments ≠ [] ∧ ¬ assocHasKey block_comments method_name then
      (method_name, joinSep " " comment_lines)
    else ("", "")
  | none => ("", "")

/-- The inner `while` collecting consecutive stripped `//` lines; empty
comment bodies are not collected. Returns the collected comment texts and the
remaining lines (starting at the first non-comment line). -/
def collectComments : List String → List String × List String
  | [] => ([], [])
  | l :: rest =>
    let line := pyStrip l
    if pyStartsWith line "//" then
      let c := pyStrip (strDrop line 2)
      let (cs, r) := collectComments rest
      (if c ≠ "" then c :: cs else cs, r)
    else ([], l :: rest)

/-- Main loop of `__extract_line_comments__` over the split lines. -/
def extractLineCommentsGo (block_comments : List (String × String)) :
    Nat → List String → List (String × String) → List (String × String)
  | _, [], acc => acc
  | 0, _, acc => acc
  | fuel + 1, lines, acc =>
    let (comment_lines, rest) := collectComments lines
    match rest with
    | [] => acc
    | l :: rest' =>
      let line := pyStrip l
      let fv :=
        if pyIn "=" line ∧ pyIn ";" line then
          logicLineCommentsFields line block_comments comment_lines
        else if pyIn "rpc " line then
          logicLineCommentsMethods line block_comments comment_lines
        else ("", "")
      let acc' := if fv.1 ≠ "" ∧ fv.2 ≠ "" then assocInsert acc fv.1 fv.2 else acc
      extractLineCommentsGo block_comments fuel rest' acc'

/-- `__extract_line_comments__(clean_content, block_comments)`. -/
def extractLineComments (clean_content : String)
    (block_comments : List (String × String)) : List (String × String) :=
  let lines := pySplitlines clean_content
  extractLineCommentsGo block_comments lines.length lines []

/-! ## Extractor top level (`ProtoExtractor`) -/

structure MessageField where
  name : String
  ftype : String      -- attribute `type` in the source (reserved word in Lean)
  number : String
  options : String
  description : String
deriving DecidableEq, Repr

structure ServiceMethod where
  name : String
  request : String
  response : String
  options : String
  description : String
deriving DecidableEq, Repr

/-- The `block_comments` dict built at the start of `__extract_fields__`
(keyed by field name, value the cleaned comment; later matches overwrite). -/
def blockCommentsOf (clean_content : String) : List (String × String) :=
  (finditerBlockFieldL clean_content.data.length clean_content.data).foldl
    (fun d p => assocInsert d p.2 (formatBlockComment p.1)) []

/-- `__extract_field__`: build one `MessageField` from a regex match and the
two comment dicts. -/
def extract_field (m : FieldMatch)
    (block_comments line_comments : List (String × String)) : MessageField :=
  let comment := pyOr (assocGetD block_comments m.name)
                   (pyOr (assocGetD line_comments m.name) m.inline)
  let field_type := if m.modifier ≠ "" then m.modifier ++ " " ++ m.ftype else m.ftype
  ⟨m.name, field_type, m.number, m.options, comment⟩

/-- `__extract_fields__(message_content)`. -/
def extract_fields (message_content : String) : List MessageField :=
  let clean_content := cleanNested message_content
  let block_comments := blockCommentsOf clean_content
  let line_comments := extractLineComments clean_content block_comments
  (finditerFieldL clean_content.data.length clean_content.data).map
    (fun m => extract_field m block_comments line_comments)

/-- `__extract_methods__(service_content)`. -/
def extract_methods (service_content : String) : List ServiceMethod :=
  let comments0 := (finditerBlockRpcL service_content.data.length service_content.data).foldl
    (fun d p => assocInsert d p.2 (formatMethodComment p.1)) []
  let inline_comments := extractLineComments service_content comments0
  let comments := inline_comments.foldl (fun d kv => assocInsert d kv.1 kv.2) comments0
  (finditerMethodL service_content.data.length service_content.data).map
    (fun m => ⟨m.name, m.request, m.response, m.options,
               pyOr (assocGetD comments m.name) m.inline⟩)

/-! ## Cross-file reference resolver (`import_resolver.py`) -/

/-- The file system seen by the resolver: absolute path → contents (`none`
means `open` raises / `os.path.exists` is false). -/
abbrev FS := String → Option String

@[ext]
structure ProtoImportResolver where
  proto_dirs : List String
  import_map : String → Option String
  package_map : String → Option String
  cross_references : String → Option String
  initialized : Bool

/-- `ProtoImportResolver.__init__(proto_dirs)`. -/
def ProtoImportResolver.mkInit (proto_dirs : List String) : ProtoImportResolver :=
  ⟨proto_dirs, fun _ => none, fun _ => none, fun _ => none, false⟩

/-- `os.path.commonpath([dir, file]) == dir`: `dir`'s components are a prefix
of `file`'s components (paths assumed absolute and normalised). -/
def isPathPrefix (dir file : String) : Bool :=
  (splitOnChar '/' dir).isPrefixOf (splitOnChar '/' file)

/-- `__find_best_proto_dir__`: the configured directory that contains
`file_path`, preferring the longest (string-length) common path; `""` when
none matches. -/
def find_best_proto_dir (proto_dirs : List String) (file_path : String) : String :=
  proto_dirs.foldl
    (fun best dir_path =>
      if isPathPrefix dir_path file_path ∧ best.length < dir_path.length then dir_path
      else best)
    ""

/-- The names hit by `__extract_definitions__`'s three flat scans (in the
order the source performs them: messages, enums, services). -/
def defNames (content : String) : List String :=
  finditerKwName "message" content.data.length content.data
    ++ finditerKwName "enum" content.data.length content.data
    ++ finditerKwName "service" content.data.length content.data

/-- `__extract_definitions__`: register `package.Name` for every occurrence of
`message\s+(\w+)`, `enum\s+(\w+)`, `service\s+(\w+)` anywhere in the file
content — the flat scans also hit declarations nested inside messages. -/
def extract_definitions (r : ProtoImportResolver) (content package file_path : String) :
    ProtoImportResolver :=
  let cr := (defNames content).foldl
    (fun m n => dictInsert m (package ++ "." ++ n) file_path)
    r.cross_references
  { r with cross_references := cr }

/-- The import key `__process_proto_file__` registers for a file: its path
relative to the best proto directory, or its basename when none matches. -/
def importKeyOf (proto_dirs : List String) (f : String) : String :=
  let best_proto_dir := find_best_proto_dir proto_dirs f
  if best_proto_dir ≠ "" then relpath f best_proto_dir
  else basename f

/-- `__process_proto_file__`: register the import key (always), then — if the
file can be read and declares a package — the package key and the
cross-references.  A read failure is swallowed by the `except`, keeping the
already-registered import entry. -/
def process_proto_file (fs : FS) (r : ProtoImportResolver) (proto_file : String) :
    ProtoImportResolver :=
  let abs_file_path := proto_file       -- os.path.abspath: identity on absolute paths
  let import_path := importKeyOf r.proto_dirs abs_file_path
  let r1 := { r with import_map := dictInsert r.import_map import_path abs_file_path }
  match fs abs_file_path with
  | none => r1
  | some content =>
    match searchPackage content with
    | none => r1
    | some package =>
      let r2 := { r1 with package_map := dictInsert r1.package_map package abs_file_path }
      extract_definitions r2 content package abs_file_path

/-- `initialize(proto_files)`: reset the three maps, process every file, set
the initialized flag.  (`initialize` is a reserved word in Lean, hence the
longer name.) -/
def initializeResolver (fs : FS) (r : ProtoImportResolver) (proto_files : List String) :
    ProtoImportResolver :=
  let r0 := { r with import_map := fun _ => none, package_map := fun _ => none,
                     cross_references := fun _ => none }
  let r1 := proto_files.foldl (process_proto_file fs) r0
  { r1 with initialized := true }

/-- `resolve_import(import_path, importing_file)`. -/
def resolve_import (fs : FS) (r : ProtoImportResolver)
    (import_path importing_file : String) : String :=
  if r.initialized = false then ""
  else
    match r.import_map import_path with
    | some p => p
    | none =>
      let fromImporting : Option String :=
        if importing_file ≠ "" then
          let potential := normpath (pjoin (dirname importing_file) import_path)
          if (fs potential).isSome then some potential else none
        else none
      match fromImporting with
      | some p => p
      | none =>
        match r.proto_dirs.findSome? (fun proto_dir =>
          let potential := normpath (pjoin proto_dir import_path)
          if (fs potential).isSome then some potential else none) with
        | some p => p
        | none => ""

/-- `resolve_type_reference(type_ref)`: exact lookup, then — for dotted
names — the loop `for i in range(1, len(parts))` checks the package map on
`".".join(parts[:i])`, i.e. on prefixes of increasing length. -/
def resolve_type_reference (r : ProtoImportResolver) (type_ref : String) : String :=
  if r.initialized = false then ""
  else if pyIn "." type_ref then
    match r.cross_references type_ref with
    | some p => p
    | none =>
      let parts := splitOnChar '.' type_ref
      match (List.range' 1 (parts.length - 1)).findSome? (fun i =>
        r.package_map (joinSep "." (parts.take i))) with
      | some p => p
      | none => ""
  else ""

/-- `get_markdown_link(type_ref, current_file_path, output_dir)`. -/
def get_markdown_link (r : ProtoImportResolver)
    (type_ref current_file_path output_dir : String) : String :=
  if r.initialized = false ∨ type_ref = "" ∨ ¬ pyIn "." type_ref then
    "`" ++ type_ref ++ "`"
  else
    let target_file := resolve_type_reference r type_ref
    if target_file = "" then "`" ++ type_ref ++ "`"
    else
      let best_proto_dir := find_best_proto_dir r.proto_dirs target_file
      if best_proto_dir ≠ "" then
        let rel_path := relpath target_file best_proto_dir
        let md_path := pjoin output_dir (splitextRoot rel_path ++ ".md")
        let current_dir := dirname current_file_path
        let rel_link := relpath md_path current_dir
        let type_name := (splitOnChar '.' type_ref).getLastD ""
        "[`" ++ type_name ++ "`](" ++ rel_link ++ ")"
      else "`" ++ type_ref ++ "`"

/-! ## Markdown converter (`converter.py`) -/

/-- `_extract_messages`: insertion-ordered dict name → body; nested messages
are re-scanned from each body and keyed `Outer.Inner`. -/
def converter_extract_messages (content : String) : List (String × String) :=
  (finditerMessages content).foldl
    (fun d p =>
      let d1 := assocInsert d p.1 p.2
      (finditerMessages p.2).foldl
        (fun d2 q => assocInsert d2 (p.1 ++ "." ++ q.1) q.2) d1)
    []

/-- Python character comparison: by code point. -/
def charLt (a b : Char) : Bool := a.toNat < b.toNat

/-- Python string `<`: code-point lexicographic. -/
def strLtL : List Char → List Char → Bool
  | [], [] => false
  | [], _ :: _ => true
  | _ :: _, [] => false
  | a :: as, b :: bs => if a = b then strLtL as bs else charLt a b

def strLt (a b : String) : Bool := strLtL a.data b.data

/-- Python string `<=`. -/
def strLe (a b : String) : Bool := !strLt b a

/-- Python tuple comparison `(k1, v1) < (k2, v2)`. -/
def pairLt (a b : String × String) : Bool :=
  if a.1 = b.1 then strLt a.2 b.2 else strLt a.1 b.1

/-- Non-strict pair order: `sorted` output is ascending w.r.t. this. -/
def pairLe (a b : String × String) : Bool := !pairLt b a

/-- Stable insertion into an ascending list. -/
def ordInsert (a : String × String) :
    List (String × String) → List (String × String)
  | [] => [a]
  | b :: l => if pairLe a b then a :: b :: l else b :: ordInsert a l

/-- Python `sorted(d.items())`.  (Python's sort is a stable sort by the tuple
order; `pairLt` is a strict total order on the pairs, so the ascending
rearrangement is unique and insertion sort produces exactly it.) -/
def sortedPairs : List (String × String) → List (String × String)
  | [] => []
  | a :: l => ordInsert a (sortedPairs l)

/-- The sequence of top-level message names rendered by `_proto_to_markdown`
(converter.py lines 164-170): iterate `sorted(messages.items())`, keeping the
names without a dot. -/
def topLevelRenderNames (content : String) : List String :=
  ((sortedPairs (converter_extract_messages content)).filter
    (fun kv => ¬ pyIn "." kv.1)).map (fun kv => kv.1)

/-- The top-level message names in file-declaration order. -/
def topLevelDeclNames (content : String) : List String :=
  ((converter_extract_messages content).filter
    (fun kv => ¬ pyIn "." kv.1)).map (fun kv => kv.1)

/-- The nested-message keys rendered inside message `name` by
`_format_message_markdown` (converter.py lines 406-414): keys of
`all_messages` starting with `name ++ "."`, iterated in sorted order, keeping
those containing a dot. -/
def nestedRenderKeys (name : String) (all_messages : List (String × String)) :
    List String :=
  ((sortedPairs (all_messages.filter (fun kv => pyStartsWith kv.1 (name ++ ".")))).filter
    (fun kv => pyIn "." kv.1)).map (fun kv => kv.1)

/-- The same nested keys in declaration (dict) order. -/
def nestedDeclKeys (name : String) (all_messages : List (String × String)) :
    List String :=
  ((all_messages.filter (fun kv => pyStartsWith kv.1 (name ++ "."))).filter
    (fun kv => pyIn "." kv.1)).map (fun kv => kv.1)

/-- The `primitive_types` list of `_format_message_markdown`. -/
def primitive_types : List String :=
  ["double", "float", "int32", "int64", "uint32", "uint64", "sint32", "sint64",
   "fixed32", "fixed64", "sfixed32", "sfixed64", "bool", "string", "bytes"]

/-- Core-type computation of `_format_message_markdown` (converter.py lines
362-369): substring tests for the three modifiers in the order
repeated/optional/required, removing every occurrence of `"<modifier> "`. -/
def coreTypeOf (field_type : String) : String :=
  if pyIn "repeated" field_type then pyReplace field_type "repeated " ""
  else if pyIn "optional" field_type then pyReplace field_type "optional " ""
  else if pyIn "required" field_type then pyReplace field_type "required " ""
  else field_type

/-- The Type cell rendered for one field by `_format_message_markdown`
(converter.py lines 355-401). -/
def renderFieldTypeCell (r : ProtoImportResolver)
    (current_proto_file output_file output_dir field_type : String) : String :=
  if current_proto_file ≠ "" ∧ output_file ≠ "" ∧ r.initialized then
    let core_type := coreTypeOf field_type
    if ¬ primitive_types.contains core_type ∧ pyIn "." core_type then
      let link := get_markdown_link r core_type output_file output_dir
      pyReplace field_type core_type (pyReplace link "`" "")
    else "`" ++ field_type ++ "`"
  else "`" ++ field_type ++ "`"

/-- One entry of the `methods` list built in `_proto_to_markdown`
(converter.py lines 274-281). -/
structure MethodRow where
  name : String
  request : String
  response : String
  description : String
deriving DecidableEq, Repr

def methodTableHeader : String :=
  "| Method | Request | Response | Description |\n|--------|---------|----------|-------------|\n"

def methodTableRow (m : MethodRow) (request response : String) : String :=
  "| " ++ m.name ++ " | " ++ request ++ " | " ++ response ++ " | " ++ m.description ++ " |\n"

/-- `_create_method_table(self, methods, current_proto_file,
current_output_file)` (converter.py lines 288-313); `r` and `output_dir`
stand for `self.import_resolver` and `self.output_dir`. -/
def create_method_table (r : ProtoImportResolver) (output_dir : String)
    (methods : List MethodRow) (current_proto_file current_output_file : String) : String :=
  methodTableHeader ++
  String.join (methods.map (fun m =>
    if current_proto_file ≠ "" ∧ current_output_file ≠ "" ∧ r.initialized then
      methodTableRow m
        (get_markdown_link r m.request current_output_file output_dir)
        (get_markdown_link r m.response current_output_file output_dir)
    else
      methodTableRow m ("`" ++ m.request ++ "`") ("`" ++ m.response ++ "`"))) ++ "\n"

/-- The call site `self._create_method_table(methods, current_output_file,
current_proto_file)` in `_proto_to_markdown` (converter.py line 284): the two
path arguments are supplied in swapped positions relative to the declared
parameters. -/
def proto_to_markdown_method_table (r : ProtoImportResolver) (output_dir : String)
    (methods : List MethodRow) (current_output_file current_proto_file : String) : String :=
  create_method_table r output_dir methods current_output_file current_proto_file

/-! ## Characterisation lemmas for the resolver state -/

/-- The package name a file contributes during indexing (`none` when the file
cannot be read or has no `package` declaration). -/
def filePackage (fs : FS) (f : String) : Option String :=
  match fs f with
  | none => none
  | some content => searchPackage content

/-- The cross-reference keys registered while processing `f`. -/
def fileCrossKeys (fs : FS) (f : String) : List String :=
  match fs f with
  | none => []
  | some content =>
    match searchPackage content with
    | none => []
    | some package => (defNames content).map (fun n => package ++ "." ++ n)

/-- Does processing `f` register the cross-reference key `q`? -/
def registersCrossRef (fs : FS) (f q : String) : Bool :=
  (fileCrossKeys fs f).contains q

/-- Normal form of one processing step. -/
theorem process_proto_file_eq (fs : FS) (st : ProtoImportResolver) (f : String) :
    process_proto_file fs st f =
      { st with
        import_map := dictInsert st.import_map (importKeyOf st.proto_dirs f) f,
        package_map :=
          match filePackage fs f with
          | some p => dictInsert st.package_map p f
          | none => st.package_map,
        cross_references :=
          (fileCrossKeys fs f).foldl (fun m k => dictInsert m k f)
            st.cross_references } := by
  cases hfs : fs f with
  | none => simp [process_proto_file, filePackage, fileCrossKeys, hfs]
  | some content =>
    cases hp : searchPackage content with
    | none => simp [process_proto_file, filePackage, fileCrossKeys, hfs, hp]
    | some package =>
      simp [process_proto_file, filePackage, fileCrossKeys, extract_definitions,
        hfs, hp, List.foldl_map]

theorem process_proto_dirs (fs : FS) (st : ProtoImportResolver) (f : String) :
    (process_proto_file fs st f).proto_dirs = st.proto_dirs := by
  rw [process_proto_file_eq]

theorem process_initialized (fs : FS) (st : ProtoImportResolver) (f : String) :
    (process_proto_file fs st f).initialized = st.initialized := by
  rw [process_proto_file_eq]

/-- Looking up `q` after a fold of same-value insertions. -/
theorem foldl_dictInsert_lookup (v : String) (l : List String) :
    ∀ (m : String → Option String) (q : String),
      (l.foldl (fun m k => dictInsert m k v) m) q
        = if l.contains q then some v else m q := by
  induction l with
  | nil => simp
  | cons a l ih =>
    intro m q
    rw [List.foldl_cons, ih]
    by_cases h : q ∈ l
    · simp [h, List.elem_iff]
    · have he : (l.elem q = true) ↔ q ∈ l := List.elem_iff
      by_cases ha : q = a <;> simp [h, ha, dictInsert, eq_comm, he]

theorem process_cross_lookup (fs : FS) (st : ProtoImportResolver) (f q : String) :
    (process_proto_file fs st f).cross_references q
      = if registersCrossRef fs f q then some f else st.cross_references q := by
  rw [process_proto_file_eq]
  simp [registersCrossRef, foldl_dictInsert_lookup]

theorem process_import_lookup (fs : FS) (st : ProtoImportResolver) (f k : String) :
    (process_proto_file fs st f).import_map k
      = if importKeyOf st.proto_dirs f = k then some f else st.import_map k := by
  rw [process_proto_file_eq]
  simp [dictInsert, eq_comm]

theorem foldl_process_proto_dirs (fs : FS) (files : List String) :
    ∀ st : ProtoImportResolver,
      (files.foldl (process_proto_file fs) st).proto_dirs = st.proto_dirs := by
  induction files with
  | nil => intro st; rfl
  | cons f files ih => intro st; rw [List.foldl_cons, ih, process_proto_dirs]

theorem foldl_process_initialized (fs : FS) (files : List String) :
    ∀ st : ProtoImportResolver,
      (files.foldl (process_proto_file fs) st).initialized = st.initialized := by
  induction files with
  | nil => intro st; rfl
  | cons f files ih => intro st; rw [List.foldl_cons, ih, process_initialized]

/-- Cross-reference lookup after processing a whole file list: the last file
that registers the key wins. -/
theorem foldl_process_cross (fs : FS) (files : List String) :
    ∀ (st : ProtoImportResolver) (q : String),
      (files.foldl (process_proto_file fs) st).cross_references q
        = match files.reverse.find? (fun f => registersCrossRef fs f q) with
          | some f => some f
          | none => st.cross_references q := by
  induction files with
  | nil => intro st q; rfl
  | cons f files ih =>
    intro st q
    rw [List.foldl_cons, ih, List.reverse_cons, List.find?_append]
    cases hfind : files.reverse.find? (fun g => registersCrossRef fs g q) with
    | some g => simp
    | none =>
      rw [process_cross_lookup]
      by_cases h : registersCrossRef fs f q <;> simp [h]

/-- Import-map lookup after processing a whole file list. -/
theorem foldl_process_import (fs : FS) (files : List String) :
    ∀ (st : ProtoImportResolver) (k : String),
      (files.foldl (process_proto_file fs) st).import_map k
        = match files.reverse.find? (fun g => importKeyOf st.proto_dirs g == k) with
          | some g => some g
          | none => st.import_map k := by
  induction files with
  | nil => intro st k; rfl
  | cons f files ih =>
    intro st k
    rw [List.foldl_cons, ih, process_proto_dirs, List.reverse_cons, List.find?_append]
    cases hfind : files.reverse.find? (fun g => importKeyOf st.proto_dirs g == k) with
    | some g => simp
    | none =>
      rw [process_import_lookup]
      by_cases h : importKeyOf st.proto_dirs f = k <;> simp [h]

theorem initializeResolver_initialized (fs : FS) (r : ProtoImportResolver)
    (files : List String) : (initializeResolver fs r files).initialized = true := by
  simp [initializeResolver]

theorem initializeResolver_proto_dirs (fs : FS) (r : ProtoImportResolver)
    (files : List String) : (initializeResolver fs r files).proto_dirs = r.proto_dirs := by
  simp [initializeResolver, foldl_process_proto_dirs]

/-- One processing step only depends on the previous state through its
directory list and its three maps. -/
theorem process_congr (fs : FS) (f : String) (st st' : ProtoImportResolver)
    (h1 : st.proto_dirs = st'.proto_dirs) (h2 : st.import_map = st'.import_map)
    (h3 : st.package_map = st'.package_map)
    (h4 : st.cross_references = st'.cross_references) :
    (process_proto_file fs st f).proto_dirs = (process_proto_file fs st' f).proto_dirs
    ∧ (process_proto_file fs st f).import_map = (process_proto_file fs st' f).import_map
    ∧ (process_proto_file fs st f).package_map = (process_proto_file fs st' f).package_map
    ∧ (process_proto_file fs st f).cross_references
        = (process_proto_file fs st' f).cross_references := by
  rw [process_proto_file_eq, process_proto_file_eq]
  refine ⟨h1, ?_, ?_, ?_⟩ <;> simp [h1, h2, h3, h4]

theorem foldl_process_congr (fs : FS) (files : List String) :
    ∀ (st st' : ProtoImportResolver),
      st.proto_dirs = st'.proto_dirs → st.import_map = st'.import_map →
      st.package_map = st'.package_map → st.cross_references = st'.cross_references →
      (files.foldl (process_proto_file fs) st).proto_dirs
          = (files.foldl (process_proto_file fs) st').proto_dirs
      ∧ (files.foldl (process_proto_file fs) st).import_map
          = (files.foldl (process_proto_file fs) st').import_map
      ∧ (files.foldl (process_proto_file fs) st).package_map
          = (files.foldl (process_proto_file fs) st').package_map
      ∧ (files.foldl (process_proto_file fs) st).cross_references
          = (files.foldl (process_proto_file fs) st').cross_references := by
  induction files with
  | nil => intro st st' h1 h2 h3 h4; exact ⟨h1, h2, h3, h4⟩
  | cons f files ih =>
    intro st st' h1 h2 h3 h4
    obtain ⟨g1, g2, g3, g4⟩ := process_congr fs f st st' h1 h2 h3 h4
    exact ih _ _ g1 g2 g3 g4

/-! ## Concrete fixtures -/

/-- A file system on which every read fails. -/
def fsEmpty : FS := fun _ => none

/-- One file declaring package `p`, with a message nested inside another. -/
def fsNested : FS := fun p =>
  if p = "/r/a.proto" then
    some "package p;\nmessage Outer \x7b\n  message Inner \x7b\n  \x7d\n\x7d\n"
  else none

/-- Two files declaring packages `a` and `a.b` and no types. -/
def fsPkgs : FS := fun p =>
  if p = "/fa.proto" then some "package a;\n"
  else if p = "/fb.proto" then some "package a.b;\n"
  else none

/-- Under root `/p`: a file in a subdirectory defining `ex.c.M`, and a sibling
file. -/
def fsLink : FS := fun p =>
  if p = "/p/sub/c.proto" then some "package ex.c;\nmessage M \x7b\n\x7d\n"
  else if p = "/p/s.proto" then some "package ex.s;\n"
  else none

/-- A file whose package name starts with the word `repeatedFoo`. -/
def fsRepFoo : FS := fun p =>
  if p = "/q/t.proto" then some "package repeatedFoo;\nmessage Bar \x7b\n\x7d\n" else none

/-! ## Claim C1 -/

/-- **C1, counterexample**: after initialising over a file whose message
`Inner` is nested inside `Outer`, the cross-reference map *does* contain
`p.Inner` (the flat `message\s+(\w+)` scan also hits nested declarations), so
the claim that nested names are not separately registered fails. -/
theorem C1_counterexample :
    (initializeResolver fsNested (ProtoImportResolver.mkInit [])
        ["/r/a.proto"]).cross_references "p.Inner" = some "/r/a.proto"
    ∧ (initializeResolver fsNested (ProtoImportResolver.mkInit [])
        ["/r/a.proto"]).cross_references "p.Outer" = some "/r/a.proto" := by
  constructor <;> rfl

/-- **C1 (amended)**: after `initialize`, the cross-reference map binds `q` to
`v` exactly when `v` is the path of the last file in the list whose keyword
scans (which see nested declarations too) produce `q` under that file's
package. -/
theorem C1_cross_reference_registration (fs : FS) (r : ProtoImportResolver)
    (files : List String) (q v : String) :
    (initializeResolver fs r files).cross_references q = some v ↔
      files.reverse.find? (fun f => registersCrossRef fs f q) = some v := by
  have hc : (initializeResolver fs r files).cross_references q
      = match files.reverse.find? (fun f => registersCrossRef fs f q) with
        | some f => some f
        | none => none := by
    simp only [initializeResolver]
    rw [foldl_process_cross]
  rw [hc]
  cases files.reverse.find? (fun f => registersCrossRef fs f q) <;> simp

/-! ## Order lemmas for the Python comparisons -/

theorem strLtL_irrefl : ∀ l : List Char, strLtL l l = false
  | [] => rfl
  | a :: l => by simp [strLtL, strLtL_irrefl l]

theorem charLt_trans {a b c : Char} (h1 : charLt a b = true)
    (h2 : charLt b c = true) : charLt a c = true := by
  simp only [charLt, decide_eq_true_eq] at *
  omega

theorem charLt_asymm {a b : Char} (h1 : charLt a b = true) : charLt b a = false := by
  simp only [charLt, decide_eq_true_eq, decide_eq_false_iff_not] at *
  omega

theorem charLt_connected {a b : Char} (h1 : charLt a b = false)
    (h2 : charLt b a = false) : a = b := by
  simp only [charLt, decide_eq_false_iff_not] at h1 h2
  exact Char.ext (UInt32.ext (show a.toNat = b.toNat by omega))

theorem strLtL_trans : ∀ a b c : List Char,
    strLtL a b = true → strLtL b c = true → strLtL a c = true
  | [], [], _, h1, _ => by simp [strLtL] at h1
  | [], _ :: _, [], _, h2 => by simp [strLtL] at h2
  | [], _ :: _, _ :: _, _, _ => rfl
  | _ :: _, [], _, h1, _ => by simp [strLtL] at h1
  | _ :: _, _ :: _, [], _, h2 => by simp [strLtL] at h2
  | x :: xs, y :: ys, z :: zs, h1, h2 => by
    simp only [strLtL] at h1 h2 ⊢
    by_cases hxy : x = y <;> by_cases hyz : y = z
    · subst hxy; subst hyz
      rw [if_pos rfl] at h1 h2 ⊢
      exact strLtL_trans _ _ _ h1 h2
    · subst hxy
      rw [if_pos rfl] at h1
      rw [if_neg hyz] at h2 ⊢
      exact h2
    · subst hyz
      rw [if_pos rfl] at h2
      rw [if_neg hxy] at h1 ⊢
      exact h1
    · rw [if_neg hxy] at h1
      rw [if_neg hyz] at h2
      have hxz : x ≠ z := by
        intro he; subst he
        rw [charLt_asymm h1] at h2
        exact Bool.noConfusion h2
      rw [if_neg hxz]
      exact charLt_trans h1 h2

theorem strLtL_connected : ∀ a b : List Char,
    strLtL a b = false → strLtL b a = false → a = b
  | [], [], _, _ => rfl
  | [], _ :: _, h1, _ => by simp [strLtL] at h1
  | _ :: _, [], _, h2 => by simp [strLtL] at h2
  | x :: xs, y :: ys, h1, h2 => by
    simp only [strLtL] at h1 h2
    by_cases hxy : x = y
    · subst hxy
      rw [if_pos rfl] at h1 h2
      rw [strLtL_connected _ _ h1 h2]
    · rw [if_neg hxy] at h1
      rw [if_neg (Ne.symm hxy)] at h2
      exact absurd (charLt_connected h1 h2) hxy

theorem pairLt_irrefl (a : String × String) : pairLt a a = false := by
  simp [pairLt, strLt, strLtL_irrefl]

theorem pairLt_trans {a b c : String × String} (h1 : pairLt a b = true)
    (h2 : pairLt b c = true) : pairLt a c = true := by
  unfold pairLt strLt at h1 h2 ⊢
  by_cases e1 : a.1 = b.1 <;> by_cases e2 : b.1 = c.1
  · rw [if_pos e1] at h1
    rw [if_pos e2] at h2
    rw [if_pos (e1.trans e2)]
    exact strLtL_trans _ _ _ h1 h2
  · rw [if_pos e1] at h1
    rw [if_neg e2] at h2
    rw [if_neg (fun he => e2 (e1.symm.trans he)), e1]
    exact h2
  · rw [if_neg e1] at h1
    rw [if_pos e2] at h2
    rw [if_neg (fun he => e1 (he.trans e2.symm)), ← e2]
    exact h1
  · rw [if_neg e1] at h1
    rw [if_neg e2] at h2
    have hac : a.1 ≠ c.1 := by
      intro he
      rw [he] at h1
      have h3 := strLtL_trans _ _ _ h1 h2
      rw [strLtL_irrefl] at h3
      exact Bool.noConfusion h3
    rw [if_neg hac]
    exact strLtL_trans _ _ _ h1 h2

theorem pairLt_connected {a b : String × String} (h1 : pairLt a b = false)
    (h2 : pairLt b a = false) : a = b := by
  unfold pairLt strLt at h1 h2
  by_cases e1 : a.1 = b.1
  · rw [if_pos e1] at h1
    rw [if_pos e1.symm] at h2
    have e2 := String.ext (strLtL_connected _ _ h1 h2)
    obtain ⟨a1, a2⟩ := a; obtain ⟨b1, b2⟩ := b
    simp only at e1 e2
    rw [e1, e2]
  · rw [if_neg e1] at h1
    rw [if_neg (Ne.symm e1)] at h2
    exact absurd (String.ext (strLtL_connected _ _ h1 h2)) e1

theorem pairLt_asymm {a b : String × String} (h : pairLt a b = true) :
    pairLt b a = false := by
  cases h2 : pairLt b a with
  | false => rfl
  | true =>
    have h3 := pairLt_trans h h2
    rw [pairLt_irrefl] at h3
    exact Bool.noConfusion h3

theorem pairLe_trans {a b c : String × String} (h1 : pairLe a b = true)
    (h2 : pairLe b c = true) : pairLe a c = true := by
  simp only [pairLe, Bool.not_eq_true'] at h1 h2 ⊢
  cases hca : pairLt c a with
  | false => rfl
  | true =>
    cases hbc : pairLt b c with
    | true =>
      rw [pairLt_trans hbc hca] at h1
      exact Bool.noConfusion h1
    | false =>
      rw [pairLt_connected h2 hbc] at hca
      rw [hca] at h1
      exact Bool.noConfusion h1

theorem pairLe_total (a b : String × String) :
    pairLe a b = true ∨ pairLe b a = true := by
  simp only [pairLe, Bool.not_eq_true']
  cases hba : pairLt b a with
  | false => exact Or.inl rfl
  | true => exact Or.inr (pairLt_asymm hba)

/-- The rendered order is ascending on the keys. -/
theorem strLe_key_of_pairLe {a b : String × String} (h : pairLe a b = true) :
    strLe a.1 b.1 = true := by
  simp only [pairLe, Bool.not_eq_true'] at h
  simp only [strLe, Bool.not_eq_true']
  unfold pairLt at h
  by_cases e : b.1 = a.1
  · rw [e]
    simp [strLt, strLtL_irrefl]
  · rw [if_neg e] at h
    exact h

theorem perm_ordInsert (a : String × String) :
    ∀ l, (ordInsert a l).Perm (a :: l)
  | [] => List.Perm.refl _
  | b :: l => by
    unfold ordInsert
    by_cases h : pairLe a b = true
    · rw [if_pos h]
    · rw [if_neg h]
      exact ((perm_ordInsert a l).cons b).trans (List.Perm.swap a b l)

theorem perm_sortedPairs : ∀ l, (sortedPairs l).Perm l
  | [] => List.Perm.refl _
  | a :: l => (perm_ordInsert a (sortedPairs l)).trans ((perm_sortedPairs l).cons a)

theorem mem_ordInsert {x a : String × String} {l : List (String × String)} :
    x ∈ ordInsert a l ↔ x = a ∨ x ∈ l := by
  rw [(perm_ordInsert a l).mem_iff, List.mem_cons]

theorem pairwise_ordInsert (a : String × String) :
    ∀ l, l.Pairwise (fun x y => pairLe x y = true) →
      (ordInsert a l).Pairwise (fun x y => pairLe x y = true)
  | [], _ => by simp [ordInsert]
  | b :: l, hp => by
    unfold ordInsert
    obtain ⟨hb, hl⟩ := List.pairwise_cons.mp hp
    by_cases h : pairLe a b = true
    · rw [if_pos h]
      refine List.pairwise_cons.mpr ⟨?_, hp⟩
      intro x hx
      rcases List.mem_cons.mp hx with rfl | hx
      · exact h
      · exact pairLe_trans h (hb x hx)
    · rw [if_neg h]
      refine List.pairwise_cons.mpr ⟨?_, pairwise_ordInsert a l hl⟩
      intro x hx
      rcases mem_ordInsert.mp hx with rfl | hx
      · rcases pairLe_total x b with h' | h'
        · exact absurd h' h
        · exact h'
      · exact hb x hx

theorem pairwise_sortedPairs : ∀ l,
    (sortedPairs l).Pairwise (fun x y => pairLe x y = true)
  | [] => List.Pairwise.nil
  | a :: l => pairwise_ordInsert a _ (pairwise_sortedPairs l)

/-! ## Claim C3 -/

def c3content : String := "message Zebra \x7b\n\x7d\nmessage Alpha \x7b\n\x7d\n"

/-- **C3, counterexample**: two top-level messages declared as `Zebra` then
`Alpha` are rendered in the order `Alpha`, `Zebra` — the renderer iterates
`sorted(messages.items())`, so top-level messages are *not* rendered in
declaration order. -/
theorem C3_counterexample :
    topLevelDeclNames c3content = ["Zebra", "Alpha"]
    ∧ topLevelRenderNames c3content = ["Alpha", "Zebra"]
    ∧ (["Alpha", "Zebra"] : List String) ≠ ["Zebra", "Alpha"] :=
  ⟨rfl, rfl, by decide⟩

/-- **C3 (amended)**: both the top-level messages and the nested messages are
rendered sorted by name: each rendered sequence is a permutation of the
declared one and is ascending in the Python string order. -/
theorem C3_render_order_sorted (content name : String) :
    (topLevelRenderNames content).Perm (topLevelDeclNames content)
    ∧ (topLevelRenderNames content).Pairwise (fun a b => strLe a b = true)
    ∧ (nestedRenderKeys name (converter_extract_messages content)).Perm
        (nestedDeclKeys name (converter_extract_messages content))
    ∧ (nestedRenderKeys name (converter_extract_messages content)).Pairwise
        (fun a b => strLe a b = true) := by
  refine ⟨?_, ?_, ?_, ?_⟩
  · exact ((perm_sortedPairs _).filter _).map _
  · exact List.pairwise_map.mpr
      (((pairwise_sortedPairs _).filter _).imp fun h => strLe_key_of_pairLe h)
  · exact ((perm_sortedPairs _).filter _).map _
  · exact List.pairwise_map.mpr
      (((pairwise_sortedPairs _).filter _).imp fun h => strLe_key_of_pairLe h)

/-! ## Claim C2 -/

/-- `findSome?` over `range' s n` yields the value at the first index mapped
to `some`. -/
theorem findSome?_range'_first {α : Type} (g : Nat → Option α) (v : α) :
    ∀ (n s i : Nat), s ≤ i → i < s + n → g i = some v →
      (∀ j, s ≤ j → j < i → g j = none) →
      (List.range' s n).findSome? g = some v := by
  intro n
  induction n with
  | zero => intro s i h1 h2 _ _; omega
  | succ n ih =>
    intro s i h1 h2 h3 h4
    rw [List.range'_succ, List.findSome?_cons]
    by_cases hsi : s = i
    · subst hsi; simp [h3]
    · have hgs : g s = none := h4 s le_rfl (by omega)
      simp only [hgs]
      exact ih (s + 1) i (by omega) (by omega) h3
        (fun j hj1 hj2 => h4 j (by omega) hj2)

/- The concrete resolver used by C2's counterexample and witness: packages
`a` and `a.b` are both indexed, and `a.b.C` names no declared type. -/
def rPkgs : ProtoImportResolver :=
  initializeResolver fsPkgs (ProtoImportResolver.mkInit []) ["/fa.proto", "/fb.proto"]

/-- **C2, counterexample**: with both `a` and `a.b` in the package map and
`a.b.C` absent from the cross-reference map, `resolve_type_reference` returns
the file of the *shortest* matching prefix `a`, not of the longest matching
prefix `a.b` as the claim states. -/
theorem C2_counterexample :
    rPkgs.cross_references "a.b.C" = none
    ∧ rPkgs.package_map "a" = some "/fa.proto"
    ∧ rPkgs.package_map "a.b" = some "/fb.proto"
    ∧ resolve_type_reference rPkgs "a.b.C" = "/fa.proto"
    ∧ ("/fa.proto" : String) ≠ "/fb.proto" :=
  ⟨rfl, rfl, rfl, rfl, by decide⟩

/-- **C2 (amended)**: for a dotted name absent from the cross-reference map,
the prefixes are checked from the *shortest* to the longest proper dotted
prefix, and the file of the first prefix present in the package map is
returned. -/
theorem C2_package_prefix_shortest_first (r : ProtoImportResolver)
    (type_ref f : String) (i : Nat)
    (hinit : r.initialized = true)
    (hdot : pyIn "." type_ref = true)
    (hmiss : r.cross_references type_ref = none)
    (h1 : 1 ≤ i) (h2 : i < (splitOnChar '.' type_ref).length)
    (hhit : r.package_map
      (joinSep "." ((splitOnChar '.' type_ref).take i)) = some f)
    (hshorter : ∀ j, 1 ≤ j → j < i →
      r.package_map (joinSep "." ((splitOnChar '.' type_ref).take j)) = none) :
    resolve_type_reference r type_ref = f := by
  have hfs : (List.range' 1 ((splitOnChar '.' type_ref).length - 1)).findSome?
      (fun j => r.package_map (joinSep "." ((splitOnChar '.' type_ref).take j)))
      = some f :=
    findSome?_range'_first _ f _ 1 i h1 (by omega) hhit hshorter
  simp [resolve_type_reference, hinit, hdot, hmiss, hfs]

/-- **C2, witness**: the amended theorem applied at the `a.b.C` instance. -/
theorem C2_witness :
    rPkgs.initialized = true
    ∧ pyIn "." "a.b.C" = true
    ∧ rPkgs.cross_references "a.b.C" = none
    ∧ rPkgs.package_map
        (joinSep "." ((splitOnChar '.' "a.b.C").take 1)) = some "/fa.proto"
    ∧ resolve_type_reference rPkgs "a.b.C" = "/fa.proto" :=
  ⟨rfl, by decide, rfl, rfl,
   C2_package_prefix_shortest_first rPkgs "a.b.C" "/fa.proto" 1 rfl (by decide) rfl
     (by decide) (by decide) rfl
     (fun j hj1 hj2 => absurd (Nat.lt_of_le_of_lt hj1 hj2) (lt_irrefl 1))⟩

/-! ## Claim C7 -/

/-- **C7, counterexample**: two files sharing the basename `x.proto` (and no
configured roots) register the same import key; resolving that key returns the
*second* file's path, so the first file's round trip fails. -/
theorem C7_counterexample :
    importKeyOf [] "/a/x.proto" = "x.proto"
    ∧ resolve_import fsEmpty
        (initializeResolver fsEmpty (ProtoImportResolver.mkInit [])
          ["/a/x.proto", "/b/x.proto"]) "x.proto" "" = "/b/x.proto"
    ∧ ("/b/x.proto" : String) ≠ "/a/x.proto" := by
  refine ⟨rfl, rfl, by decide⟩

/-- **C7 (amended)**: resolving the import key registered for a file returns
that file's path, provided no other file of the batch registers the same
key. -/
theorem C7_roundtrip_unique_key (fs : FS) (r : ProtoImportResolver)
    (files : List String) (f : String) (hf : f ∈ files)
    (huniq : ∀ g ∈ files,
      importKeyOf r.proto_dirs g = importKeyOf r.proto_dirs f → g = f) :
    resolve_import fs (initializeResolver fs r files)
      (importKeyOf r.proto_dirs f) "" = f := by
  have him : (initializeResolver fs r files).import_map
      (importKeyOf r.proto_dirs f) = some f := by
    simp only [initializeResolver]
    rw [foldl_process_import]
    have hex : (files.reverse.find?
        (fun g => importKeyOf r.proto_dirs g == importKeyOf r.proto_dirs f)).isSome := by
      refine List.find?_isSome.mpr ⟨f, by simpa using hf, by simp⟩
    obtain ⟨g, hg⟩ := Option.isSome_iff_exists.mp hex
    have hpg : importKeyOf r.proto_dirs g = importKeyOf r.proto_dirs f := by
      simpa using List.find?_some hg
    have hgmem : g ∈ files := by
      simpa using List.mem_of_find?_eq_some hg
    rw [hg, huniq g hgmem hpg]
  simp [resolve_import, initializeResolver_initialized, him]

/-- **C7, witness**: a singleton batch satisfies the uniqueness hypothesis and
round-trips. -/
theorem C7_witness :
    ("/a/x.proto" : String) ∈ ["/a/x.proto"]
    ∧ (∀ g ∈ ["/a/x.proto"],
        importKeyOf (ProtoImportResolver.mkInit []).proto_dirs g
          = importKeyOf (ProtoImportResolver.mkInit []).proto_dirs "/a/x.proto" →
        g = "/a/x.proto")
    ∧ resolve_import fsEmpty
        (initializeResolver fsEmpty (ProtoImportResolver.mkInit []) ["/a/x.proto"])
        (importKeyOf (ProtoImportResolver.mkInit []).proto_dirs "/a/x.proto") ""
        = "/a/x.proto" :=
  ⟨by decide,
   fun g hg _ => by simpa using hg,
   C7_roundtrip_unique_key fsEmpty (ProtoImportResolver.mkInit []) ["/a/x.proto"]
     "/a/x.proto" (by decide) (fun g hg _ => by simpa using hg)⟩

/-! ## Claim C8 -/

/-- **C8**: `initialize` is idempotent — a second call with the same file list
and unchanged file contents rebuilds exactly the same state. -/
theorem C8_initialize_idempotent (fs : FS) (r : ProtoImportResolver)
    (files : List String) :
    initializeResolver fs (initializeResolver fs r files) files
      = initializeResolver fs r files := by
  obtain ⟨e1, e2, e3, e4⟩ :=
    foldl_process_congr fs files
      { initializeResolver fs r files with
          import_map := fun _ => none, package_map := fun _ => none,
          cross_references := fun _ => none }
      { r with
          import_map := fun _ => none, package_map := fun _ => none,
          cross_references := fun _ => none }
      (by simpa using initializeResolver_proto_dirs fs r files) rfl rfl rfl
  apply ProtoImportResolver.ext
  · simpa [initializeResolver] using e1
  · simpa [initializeResolver] using e2
  · simpa [initializeResolver] using e3
  · simpa [initializeResolver] using e4
  · simp [initializeResolver]

/-! ## Claim C5 -/

/- The resolver state shared by C5's and C6's witnesses: one root `/p`, a file
in a subdirectory defining `ex.c.M`. -/
def rLink : ProtoImportResolver :=
  initializeResolver fsLink (ProtoImportResolver.mkInit ["/p"])
    ["/p/sub/c.proto", "/p/s.proto"]

/-- **C5**: at the `_proto_to_markdown` call site the two path arguments of
`_create_method_table` are passed in swapped positions, so every
`get_markdown_link` call for a request or response type receives the proto
source file path in its `current_file_path` slot — the relative link is
computed from the directory of the source file, not of the markdown output
file. -/
theorem C5_method_table_swapped_paths (r : ProtoImportResolver)
    (output_dir : String) (methods : List MethodRow)
    (current_output_file current_proto_file : String)
    (hinit : r.initialized = true)
    (hp : current_proto_file ≠ "") (ho : current_output_file ≠ "") :
    proto_to_markdown_method_table r output_dir methods
        current_output_file current_proto_file
      = methodTableHeader ++
        String.join (methods.map (fun m =>
          methodTableRow m
            (get_markdown_link r m.request current_proto_file output_dir)
            (get_markdown_link r m.response current_proto_file output_dir)))
        ++ "\n" := by
  simp [proto_to_markdown_method_table, create_method_table, hinit, hp, ho]

/-- **C5, witness**: with source file `/p/s.proto` and output file
`/docs/s.md`, the rendered request link is `../docs/sub/c.md` — relative to
the source directory `/p`, not to the output directory `/docs`. -/
theorem C5_witness :
    rLink.initialized = true
    ∧ ("/p/s.proto" : String) ≠ ""
    ∧ ("/docs/s.md" : String) ≠ ""
    ∧ proto_to_markdown_method_table rLink "/docs"
        [⟨"Get", "ex.c.M", "ex.c.M", "d"⟩] "/docs/s.md" "/p/s.proto"
      = methodTableHeader ++
        String.join ([(⟨"Get", "ex.c.M", "ex.c.M", "d"⟩ : MethodRow)].map (fun m =>
          methodTableRow m
            (get_markdown_link rLink m.request "/p/s.proto" "/docs")
            (get_markdown_link rLink m.response "/p/s.proto" "/docs")))
        ++ "\n"
    ∧ get_markdown_link rLink "ex.c.M" "/p/s.proto" "/docs"
        = "[`M`](../docs/sub/c.md)" :=
  ⟨rfl, by decide, by decide,
   C5_method_table_swapped_paths rLink "/docs" _ "/docs/s.md" "/p/s.proto"
     rfl (by decide) (by decide),
   by rfl⟩

/-! ## Claim C6 -/

theorem isInfixOfL_of_isPrefixOf {pat l : List Char}
    (h : pat.isPrefixOf l = true) : isInfixOfL pat l = true := by
  cases l with
  | nil => simpa [isInfixOfL] using h
  | cons c rest => simp [isInfixOfL, h]

theorem mem_of_isInfixOfL {pat l : List Char} {c : Char}
    (h : isInfixOfL pat l = true) (hc : c ∈ pat) : c ∈ l := by
  induction l with
  | nil =>
    simp only [isInfixOfL] at h
    rw [List.isPrefixOf_iff_prefix] at h
    rw [List.prefix_nil.mp h] at hc
    exact absurd hc (List.not_mem_nil c)
  | cons x rest ih =>
    simp only [isInfixOfL, Bool.or_eq_true] at h
    rcases h with h | h
    · exact (List.isPrefixOf_iff_prefix.mp h).subset hc
    · exact List.mem_cons_of_mem x (ih h)

theorem singleton_isInfixOfL_iff {c : Char} {l : List Char} :
    isInfixOfL [c] l = true ↔ c ∈ l := by
  constructor
  · intro h
    exact mem_of_isInfixOfL h (List.mem_singleton_self c)
  · intro h
    induction l with
    | nil => exact absurd h (List.not_mem_nil c)
    | cons x rest ih =>
      rcases List.mem_cons.mp h with rfl | h
      · simp [isInfixOfL, List.isPrefixOf]
      · simp [isInfixOfL, ih h]

theorem replaceAllL_eq_self {old new : List Char} {c : Char} (hc : c ∈ old) :
    ∀ (fuel : Nat) (s : List Char), c ∉ s → replaceAllL old new fuel s = s
  | _, [], _ => by simp [replaceAllL]
  | 0, x :: rest, _ => by simp [replaceAllL]
  | fuel + 1, x :: rest, hs => by
    rw [replaceAllL, if_neg]
    · have hrest : c ∉ rest := fun h => hs (List.mem_cons_of_mem x h)
      rw [replaceAllL_eq_self hc fuel rest hrest]
    · rintro ⟨-, hpre⟩
      exact hs ((List.isPrefixOf_iff_prefix.mp hpre).subset hc)

theorem replaceAllL_strip (old t : List Char) {c : Char}
    (hc : c ∈ old) (hct : c ∉ t) (fuel : Nat) :
    replaceAllL old [] (fuel + 1) (old ++ t) = t := by
  cases old with
  | nil => exact absurd hc (List.not_mem_nil c)
  | cons o os =>
    rw [List.cons_append, replaceAllL, if_pos, List.nil_append,
      ← List.cons_append, List.drop_left]
    · exact replaceAllL_eq_self hc fuel t hct
    · refine ⟨List.cons_ne_nil o os, List.isPrefixOf_iff_prefix.mpr ?_⟩
      rw [← List.cons_append]
      exact List.prefix_append _ _

/-- Python `"c" in s` as membership of the character. -/
theorem pyIn_single_iff {c : Char} {sc t : String} (hsc : sc.data = [c]) :
    pyIn sc t = true ↔ c ∈ t.data := by
  rw [show pyIn sc t = isInfixOfL sc.data t.data from rfl, hsc]
  exact singleton_isInfixOfL_iff

/-- Removing occurrences of a pattern containing a space from a space-free
string leaves it unchanged. -/
theorem pyReplace_no_space {t : String} (pat : String) (hpat : ' ' ∈ pat.data)
    (ht : pyIn " " t = false) : pyReplace t pat "" = t := by
  have hsp : ' ' ∉ t.data := by
    intro h
    rw [(pyIn_single_iff rfl).mpr h] at ht
    exact Bool.noConfusion ht
  show String.mk (replaceAllL pat.data [] t.data.length t.data) = t
  rw [replaceAllL_eq_self hpat _ _ hsp]

/-- Removing occurrences of `mod` from `mod ++ t` yields `t` when `mod`
contains a space and `t` does not. -/
theorem pyReplace_strip_prefix (mod t : String) (hmod : ' ' ∈ mod.data)
    (ht : pyIn " " t = false) : pyReplace (mod ++ t) mod "" = t := by
  have hsp : ' ' ∉ t.data := by
    intro h
    rw [(pyIn_single_iff rfl).mpr h] at ht
    exact Bool.noConfusion ht
  show String.mk (replaceAllL mod.data [] (mod ++ t).data.length
    (mod ++ t).data) = t
  obtain ⟨fuel, hfuel⟩ : ∃ n, (mod ++ t).data.length = n + 1 := by
    rw [String.data_append]
    cases hm : mod.data with
    | nil => rw [hm] at hmod; exact absurd hmod (List.not_mem_nil _)
    | cons a l => exact ⟨(l ++ t.data).length, by simp⟩
  rw [hfuel, String.data_append, replaceAllL_strip mod.data t.data hmod hsp fuel]

/-- A word is a substring of any string that starts with `word ++ " "`. -/
theorem pyIn_prefix_word (w sp t : String) (hw : sp.data = w.data ++ [' ']) :
    pyIn w (sp ++ t) = true := by
  apply isInfixOfL_of_isPrefixOf
  rw [String.data_append, hw, List.append_assoc]
  exact List.isPrefixOf_iff_prefix.mpr (List.prefix_append _ _)

/-- A dotted name is never one of the fifteen scalar types (they contain no
dot), under either a case-sensitive or a case-insensitive reading. -/
theorem not_primitive_of_dotted {t : String} (hdot : pyIn "." t = true) :
    primitive_types.contains t = false := by
  have hd : '.' ∈ t.data := (pyIn_single_iff rfl).mp hdot
  by_contra hfalse
  rw [Bool.not_eq_false] at hfalse
  have hmem : t ∈ primitive_types := List.elem_iff.mp hfalse
  simp only [primitive_types] at hmem
  fin_cases hmem <;> exact absurd hd (by decide)

/- The resolver state used by C6's counterexample: the package `repeatedFoo`
defines a message `Bar`, so `repeatedFoo.Bar` resolves. -/
def rRep : ProtoImportResolver :=
  initializeResolver fsRepFoo (ProtoImportResolver.mkInit ["/q"]) ["/q/t.proto"]

/-- **C6, counterexample**: for the field type `optional repeatedFoo.Bar` the
substring test `"repeated" in field_type` fires first, its replacement does
nothing (no `"repeated "` occurrence), and the leading `optional` modifier is
*not* stripped: the resolver is asked about the whole modifier-qualified
string (which does not resolve), instead of about the core type
`repeatedFoo.Bar` (which does, and would have produced a link). -/
theorem C6_counterexample :
    coreTypeOf "optional repeatedFoo.Bar" = "optional repeatedFoo.Bar"
    ∧ ("optional repeatedFoo.Bar" : String) ≠ "repeatedFoo.Bar"
    ∧ renderFieldTypeCell rRep "/q/u.proto" "/docs/u.md" "/docs"
        "optional repeatedFoo.Bar" = "optional repeatedFoo.Bar"
    ∧ pyReplace "optional repeatedFoo.Bar" "repeatedFoo.Bar"
        (pyReplace (get_markdown_link rRep "repeatedFoo.Bar" "/docs/u.md" "/docs")
          "`" "")
        = "optional [Bar](t.md)"
    ∧ ("optional repeatedFoo.Bar" : String) ≠ "optional [Bar](t.md)" :=
  ⟨rfl, by decide, rfl, rfl, by decide⟩

/-- **C6 (amended)**: the modifier check is a substring test (repeated, then
optional, then required) removing occurrences of `"<modifier> "`.  For a
space-free core type `t` whose composite does not trip an earlier modifier
branch, the core type is `t`; a resolver link is requested exactly when `t` is
not in the scalar set and contains a dot (membership is vacuous for dotted
names, so a case-insensitive reading agrees), the link replaces the core-type
substring inside the modifier-qualified string, and otherwise the whole type
string is rendered as literal code text. -/
theorem C6_field_type_rendering (r : ProtoImportResolver)
    (current_proto_file output_file output_dir mod t : String)
    (hp : current_proto_file ≠ "") (ho : output_file ≠ "")
    (hinit : r.initialized = true)
    (hsp : pyIn " " t = false)
    (hmod : mod = "" ∨ mod = "repeated " ∨
      (mod = "optional " ∧ pyIn "repeated" (mod ++ t) = false) ∨
      (mod = "required " ∧ pyIn "repeated" (mod ++ t) = false
        ∧ pyIn "optional" (mod ++ t) = false)) :
    coreTypeOf (mod ++ t) = t
    ∧ renderFieldTypeCell r current_proto_file output_file output_dir (mod ++ t)
      = (if ¬ primitive_types.contains t ∧ pyIn "." t then
          pyReplace (mod ++ t) t
            (pyReplace (get_markdown_link r t output_file output_dir) "`" "")
        else "`" ++ (mod ++ t) ++ "`")
    ∧ (pyIn "." t = true → primitive_types.contains t = false) := by
  have hcore : coreTypeOf (mod ++ t) = t := by
    have hempty : ("" : String) ++ t = t :=
      String.ext (by rw [String.data_append]; rfl)
    rcases hmod with rfl | rfl | ⟨rfl, hrep⟩ | ⟨rfl, hrep, hopt⟩
    · rw [hempty]
      unfold coreTypeOf
      split_ifs with h1 h2 h3
      · exact pyReplace_no_space _ (by decide) hsp
      · exact pyReplace_no_space _ (by decide) hsp
      · exact pyReplace_no_space _ (by decide) hsp
      · rfl
    · unfold coreTypeOf
      rw [if_pos (by exact_mod_cast pyIn_prefix_word "repeated" "repeated " t rfl)]
      exact pyReplace_strip_prefix _ _ (by decide) hsp
    · unfold coreTypeOf
      rw [if_neg (by simp [hrep]), if_pos
        (by exact_mod_cast pyIn_prefix_word "optional" "optional " t rfl)]
      exact pyReplace_strip_prefix _ _ (by decide) hsp
    · unfold coreTypeOf
      rw [if_neg (by simp [hrep]), if_neg (by simp [hopt]), if_pos
        (by exact_mod_cast pyIn_prefix_word "required" "required " t rfl)]
      exact pyReplace_strip_prefix _ _ (by decide) hsp
  refine ⟨hcore, ?_, fun hdot => not_primitive_of_dotted hdot⟩
  simp [renderFieldTypeCell, hcore, hp, ho, hinit]

/-- **C6, witness**: `repeated ex.c.M` strips to `ex.c.M`, which resolves, and
the rendered cell keeps the `repeated` prefix while linking only the core
type. -/
theorem C6_witness :
    ("/p/s.proto" : String) ≠ ""
    ∧ ("/docs/s.md" : String) ≠ ""
    ∧ rLink.initialized = true
    ∧ pyIn " " "ex.c.M" = false
    ∧ coreTypeOf ("repeated " ++ "ex.c.M") = "ex.c.M"
    ∧ renderFieldTypeCell rLink "/p/s.proto" "/docs/s.md" "/docs"
        ("repeated " ++ "ex.c.M")
      = (if ¬ primitive_types.contains "ex.c.M" ∧ pyIn "." "ex.c.M" then
          pyReplace ("repeated " ++ "ex.c.M") "ex.c.M"
            (pyReplace (get_markdown_link rLink "ex.c.M" "/docs/s.md" "/docs") "`" "")
        else "`" ++ ("repeated " ++ "ex.c.M") ++ "`")
    ∧ renderFieldTypeCell rLink "/p/s.proto" "/docs/s.md" "/docs"
        "repeated ex.c.M" = "repeated [M](sub/c.md)" := by
  obtain ⟨h1, h2, -⟩ := C6_field_type_rendering rLink "/p/s.proto" "/docs/s.md"
    "/docs" "repeated " "ex.c.M" (by decide) (by decide) rfl (by decide)
    (Or.inr (Or.inl rfl))
  exact ⟨by decide, by decide, rfl, by decide, h1, h2, by rfl⟩

/-! ## Claim C9 -/

/-- **C9**: before `initialize` has run, every query returns its not-found
sentinel: `resolve_import` and `resolve_type_reference` return `""` and
`get_markdown_link` returns the raw name in backticks, for every argument. -/
theorem C9_uninitialized_sentinels (fs : FS) (proto_dirs : List String)
    (import_path importing_file type_ref current_file_path output_dir : String) :
    resolve_import fs (ProtoImportResolver.mkInit proto_dirs)
        import_path importing_file = ""
    ∧ resolve_type_reference (ProtoImportResolver.mkInit proto_dirs) type_ref = ""
    ∧ get_markdown_link (ProtoImportResolver.mkInit proto_dirs) type_ref
        current_file_path output_dir = "`" ++ type_ref ++ "`" := by
  refine ⟨?_, ?_, ?_⟩ <;>
    simp [resolve_import, resolve_type_reference, get_markdown_link,
      ProtoImportResolver.mkInit]

/-! ## Claim C10 -/

def c10content : String := "/** */\nstring f = 1; // hi\n"

/-- **C10, counterexample**: a field preceded by an *empty* block comment
(`/** */`) still takes its trailing inline comment: the block-comment pass
binds `f` to the empty cleaned text, and the `or` chain in
`__extract_field__` treats that as absent, so the trailing `// hi` wins —
contradicting "a trailing inline comment is ignored whenever a preceding
block comment exists for that field name". -/
theorem C10_counterexample :
    blockCommentsOf (cleanNested c10content) = [("f", "")]
    ∧ extract_fields c10content = [⟨"f", "string", "1", "", "hi"⟩]
    ∧ ("hi" : String) ≠ "" :=
  ⟨rfl, rfl, by decide⟩

/-- **C10 (amended)**: whenever the block-comment pass binds a field's name to
a *nonempty* cleaned text, the extracted field's description equals exactly
that text; in particular the trailing inline comment is then ignored. -/
theorem C10_block_comment_wins (content : String) (fld : MessageField)
    (hmem : fld ∈ extract_fields content)
    (hne : assocGetD (blockCommentsOf (cleanNested content)) fld.name ≠ "") :
    fld.description
      = assocGetD (blockCommentsOf (cleanNested content)) fld.name := by
  simp only [extract_fields, List.mem_map] at hmem
  obtain ⟨m, -, rfl⟩ := hmem
  simp only [extract_field] at hne ⊢
  unfold pyOr
  rw [if_neg hne]

def c10wcontent : String := "/** Doc */\nstring g = 2; // tail"

/-- **C10, witness**: the field `g` carries both a nonempty block comment and
a trailing inline comment; its description is the block text `Doc`. -/
theorem C10_witness :
    (⟨"g", "string", "2", "", "Doc"⟩ : MessageField) ∈ extract_fields c10wcontent
    ∧ assocGetD (blockCommentsOf (cleanNested c10wcontent)) "g" ≠ ""
    ∧ (⟨"g", "string", "2", "", "Doc"⟩ : MessageField).description
        = assocGetD (blockCommentsOf (cleanNested c10wcontent)) "g" :=
  ⟨by decide, by decide,
   C10_block_comment_wins c10wcontent _ (by decide) (by decide)⟩

/-! ## Claim C4 -/

def c4service : String := "  // Creates a widget\n  rpc Create(Req) returns (Resp);\n"

/-- **C4 (code bug)**: a method whose only documentation is a preceding `//`
line comment receives an *empty* description, because
`__logic_line_comments_methods__` guards on the truthiness of the
`block_comments` dict (`if rpc_match and block_comments:`) instead of on
`comment_lines` as its field counterpart (and the converter's duplicate
`_extract_methods`) do: with no block comment anywhere in the service, the
collected line comment is discarded.  The third conjunct shows that with any
non-empty dict the very same line comment *is* extracted, isolating the guard
as the culprit. -/
theorem C4_line_comment_dropped :
    extract_methods c4service = [⟨"Create", "Req", "Resp", "", ""⟩]
    ∧ logicLineCommentsMethods "rpc Create(Req) returns (Resp);" []
        ["Creates a widget"] = ("", "")
    ∧ logicLineCommentsMethods "rpc Create(Req) returns (Resp);" [("Other", "x")]
        ["Creates a widget"] = ("Create", "Creates a widget") :=
  ⟨rfl, rfl, rfl⟩

end MkdocsProtobuf
